import Mathlib

/-!
# Verification of the PE_Scanner protection layer

A shallow embedding of the rate-limiting / quota / cached-batch-fetch core of
the PE_Scanner repository, together with theorems settling the specification
claims about it.

Embedded modules:
* `src/pe_scanner/data/api_throttle.py` — token-bucket throttle (`YahooAPIThrottle`);
* `src/pe_scanner/api/rate_limit.py`    — tiered daily quota limiter;
* `src/pe_scanner/data/fetcher.py`      — TTL result cache (`MarketDataCache`)
  and the concurrent batch fetch engine (`batch_fetch`).

Modelling conventions:
* wall-clock instants and token counts are rationals (`ℚ`); the Python code
  uses floats, and every arithmetic step used here (`+`, `-`, `*`, `min`,
  comparisons) is exact in the source's value range;
* the Redis / shared backend is an explicit value: `none` models an
  unreachable backend, `some store` a reachable one; a caught backend
  exception (`except redis.RedisError`) is modelled by an `opFails` flag;
* Python dicts are association lists with in-place replacement, mirroring
  insertion-order semantics;
* the thread pool of `batch_fetch` is determinized to submission order; the
  claims verified here are about counts and per-item outcomes, which are
  order-independent;
* all embedded operations are total Lean functions: an uncaught exception
  would be modelled as an explicit error value, so totality of the embedding
  expresses that the corresponding Python code raises no exception.
-/

/-! ## String case normalization facts (Python `.upper()` ↔ `String.toUpper`) -/

theorem char_ofNat_toNat {n : Nat} (h : n < 55296) : (Char.ofNat n).toNat = n := by
  have hv : n.isValidChar := Or.inl h
  rw [Char.ofNat, dif_pos hv]
  rfl

theorem char_toUpper_def (c : Char) :
    c.toUpper = if c.toNat ≥ 97 ∧ c.toNat ≤ 122 then Char.ofNat (c.toNat - 32) else c := rfl

theorem char_toUpper_idem (c : Char) : c.toUpper.toUpper = c.toUpper := by
  by_cases h : c.toNat ≥ 97 ∧ c.toNat ≤ 122
  · have h1 : c.toUpper = Char.ofNat (c.toNat - 32) := by rw [char_toUpper_def, if_pos h]
    have h2 : c.toUpper.toNat = c.toNat - 32 := by rw [h1, char_ofNat_toNat (by omega)]
    rw [char_toUpper_def c.toUpper, if_neg (by omega)]
  · have h1 : c.toUpper = c := by rw [char_toUpper_def, if_neg h]
    rw [h1]
    exact h1

/-- Python `str.upper()` on the character list of a string (ASCII case map,
as `Char.toUpper`; ticker symbols are ASCII). Defined over `s.data` so that
it is kernel-computable. -/
def pyUpper (s : String) : String := ⟨s.data.map Char.toUpper⟩

/-- Python `str.strip()`: drop leading and trailing whitespace. -/
def pyStrip (s : String) : String :=
  ⟨((s.data.dropWhile Char.isWhitespace).reverse.dropWhile Char.isWhitespace).reverse⟩

theorem pyUpper_idem (s : String) : pyUpper (pyUpper s) = pyUpper s := by
  simp only [pyUpper, List.map_map]
  congr 1
  apply List.map_congr_left
  intro c _
  exact char_toUpper_idem c

/-! ## Association lists (model of Python `dict`)

`alist_update` overwrites in place (Python dict assignment keeps insertion
position); `alist_erase` removes the binding (`del d[k]`). Stores built only
through `alist_update` have distinct keys, matching dict semantics. -/

def alist_lookup {β : Type} (k : String) : List (String × β) → Option β
  | [] => none
  | (k', v) :: rest => if k' = k then some v else alist_lookup k rest

def alist_update {β : Type} (k : String) (v : β) : List (String × β) → List (String × β)
  | [] => [(k, v)]
  | (k', v') :: rest => if k' = k then (k, v) :: rest else (k', v') :: alist_update k v rest

def alist_erase {β : Type} (k : String) : List (String × β) → List (String × β)
  | [] => []
  | (k', v') :: rest => if k' = k then rest else (k', v') :: alist_erase k rest

theorem alist_lookup_update_self {β : Type} (k : String) (v : β)
    (l : List (String × β)) : alist_lookup k (alist_update k v l) = some v := by
  induction l with
  | nil => simp [alist_lookup, alist_update]
  | cons p rest ih =>
    by_cases h : p.1 = k
    · simp [alist_update, alist_lookup, h]
    · simp [alist_update, alist_lookup, h, ih]

theorem alist_length_update_of_lookup {β : Type} (k : String) (v : β)
    (l : List (String × β)) (h : (alist_lookup k l).isSome) :
    (alist_update k v l).length = l.length := by
  induction l with
  | nil => simp [alist_lookup] at h
  | cons p rest ih =>
    by_cases hk : p.1 = k
    · simp [alist_update, hk]
    · simp only [alist_lookup, hk, if_neg, ite_false] at h
      simp [alist_update, hk, ih h]

theorem alist_lookup_eq_none_of_not_mem {β : Type} (k : String) (l : List (String × β))
    (h : k ∉ l.map Prod.fst) : alist_lookup k l = none := by
  induction l with
  | nil => rfl
  | cons p rest ih =>
    simp only [List.map_cons, List.mem_cons, not_or] at h
    rw [alist_lookup, if_neg (fun hp => h.1 hp.symm)]
    exact ih h.2

theorem alist_lookup_erase_self {β : Type} (k : String) (l : List (String × β))
    (hnd : (l.map Prod.fst).Nodup) : alist_lookup k (alist_erase k l) = none := by
  induction l with
  | nil => simp [alist_erase, alist_lookup]
  | cons p rest ih =>
    simp only [List.map_cons, List.nodup_cons] at hnd
    by_cases hk : p.1 = k
    · rw [alist_erase, if_pos hk]
      exact alist_lookup_eq_none_of_not_mem k rest (hk ▸ hnd.1)
    · rw [alist_erase, if_neg hk, alist_lookup, if_neg hk]
      exact ih hnd.2

theorem alist_length_erase_of_lookup {β : Type} (k : String) (l : List (String × β))
    (h : (alist_lookup k l).isSome) :
    (alist_erase k l).length = l.length - 1 := by
  induction l with
  | nil => simp [alist_lookup] at h
  | cons p rest ih =>
    by_cases hk : p.1 = k
    · simp [alist_erase, hk]
    · simp only [alist_lookup, hk, if_neg, ite_false] at h
      have hrest : 1 ≤ rest.length := by
        cases rest with
        | nil => simp [alist_lookup] at h
        | cons q r => simp
      have hih := ih h
      simp only [alist_erase, hk, ite_false, List.length_cons]
      omega

/-! ## Token-bucket throttle (`src/pe_scanner/data/api_throttle.py`)

Configuration constants from the module header. -/

def YAHOO_REQUESTS_PER_SECOND : ℚ := 2

def YAHOO_BURST_LIMIT : ℚ := 5

/-- Local (fallback-mode) token-bucket state of `YahooAPIThrottle`:
`_local_tokens` and `_local_last_refill`. -/
structure LocalThrottle where
  tokens : ℚ
  lastRefill : ℚ
deriving DecidableEq

/-- `YahooAPIThrottle._refill_tokens_local`, with the `time.time()` reading
passed explicitly as `now`. Returns the token count the Python method returns
together with the updated object state. -/
def refill_tokens_local (now : ℚ) (st : LocalThrottle) : ℚ × LocalThrottle :=
  let elapsed := now - st.lastRefill
  let tokensToAdd := elapsed * YAHOO_REQUESTS_PER_SECOND
  if tokensToAdd > 0 then
    let newTokens := min (st.tokens + tokensToAdd) YAHOO_BURST_LIMIT
    (newTokens, { tokens := newTokens, lastRefill := now })
  else
    (st.tokens, st)

/-- `YahooAPIThrottle._consume_token_local`. -/
def consume_token_local (now : ℚ) (st : LocalThrottle) : Bool × LocalThrottle :=
  let r := refill_tokens_local now st
  if r.1 ≥ 1 then
    (true, { r.2 with tokens := r.2.tokens - 1 })
  else
    (false, r.2)

/-- A sequence of `n` `_consume_token_local` calls, all at the same clock
reading `now` (no elapsed time between them). Returns the number of calls
that returned `True` and the final state. -/
def consume_seq (now : ℚ) : Nat → LocalThrottle → Nat × LocalThrottle
  | 0, st => (0, st)
  | n + 1, st =>
    let c := consume_token_local now st
    let r := consume_seq now n c.2
    ((if c.1 then 1 else 0) + r.1, r.2)

/-- The Redis-held token-bucket state: the values of keys `yahoo:api:tokens`
and `yahoo:api:last_refill` (absent key ↦ `none`), for a reachable backend. -/
structure RedisBucket where
  tokens : Option ℚ
  lastRefill : Option ℚ
deriving DecidableEq

/-- `YahooAPIThrottle._refill_tokens_redis` on a reachable backend
(the `except` branch is unreachable then). `float(... or now)` /
`float(... or 0)` become `Option.getD`. -/
def refill_tokens_redis (now : ℚ) (b : RedisBucket) : ℚ × RedisBucket :=
  let lastRefill := b.lastRefill.getD now
  let elapsed := now - lastRefill
  let tokensToAdd := elapsed * YAHOO_REQUESTS_PER_SECOND
  if tokensToAdd > 0 then
    let currentTokens := b.tokens.getD 0
    let newTokens := min (currentTokens + tokensToAdd) YAHOO_BURST_LIMIT
    (newTokens, { tokens := some newTokens, lastRefill := some now })
  else
    (b.tokens.getD 0, b)

/-- `YahooAPIThrottle.acquire` in local mode (`_use_redis` false).
`start` is the initial `time.time()` reading; `times` is the list of
successive clock readings at the top of each `while` iteration (the embedding
of the advancing wall clock; an exhausted list ends the loop with the
timeout outcome). Matches the loop: while `now - start < timeout`, try
`_consume_token_local`; on success return `True`, otherwise sleep and retry;
on loop exit return `False`. -/
def acquire_local (start timeout : ℚ) : List ℚ → LocalThrottle → Bool × LocalThrottle
  | [], st => (false, st)
  | t :: rest, st =>
    if t - start < timeout then
      let c := consume_token_local t st
      if c.1 then (true, c.2) else acquire_local start timeout rest c.2
    else
      (false, st)

/-! ## Tiered quota limiter (`src/pe_scanner/api/rate_limit.py`) -/

/-- The `RATE_LIMITS` dict. -/
def rate_limits_lookup (tier : String) : Option Int :=
  if tier = "anonymous" then some 3
  else if tier = "free" then some 10
  else if tier = "pro" then some (-1)
  else if tier = "premium" then some (-1)
  else none

/-- `RATE_LIMITS.get(tier, RATE_LIMITS["anonymous"])`. -/
def limit_for (tier : String) : Int :=
  (rate_limits_lookup tier).getD 3

def RATE_LIMIT_WINDOW : Nat := 86400

/-- `RateLimitResult` dataclass (the `reset_at` datetime is carried as an
abstract rational timestamp). -/
structure RateLimitResult where
  allowed : Bool
  remaining : Int
  limit : Int
  resetAt : ℚ
  tier : String
  suggestUpgrade : Bool
deriving DecidableEq

/-- The day-scoped counters held by the backend: key ↦ (count, ttl-seconds).
`none` at the client level models an unreachable backend. -/
def QuotaStore : Type := List (String × Nat × Nat)

/-- `get_rate_limit_key`: `"ratelimit:{tier}:{identifier}:{date}"`. -/
def get_rate_limit_key (tier identifier date : String) : String :=
  "ratelimit:" ++ tier ++ ":" ++ identifier ++ ":" ++ date

/-- The count read by `client.get(key)` + `int(current) if current else 0`. -/
def quota_count (key : String) (store : QuotaStore) : Nat :=
  match alist_lookup key store with
  | some cv => cv.1
  | none => 0

/-- The ttl currently attached to a counter key (for checking `expire`). -/
def quota_ttl (key : String) (store : QuotaStore) : Option Nat :=
  (alist_lookup key store).map Prod.snd

/-- `check_rate_limit(tier, identifier)`.

* `client = none` — `RedisClient.get_client()` returned `None` (backend
  unreachable): the fail-open branch.
* `opFails = true` — the `client.get` call raised `redis.RedisError`,
  caught by the `except` clause: the second fail-open branch.
* `today` is the UTC date string used by `get_rate_limit_key`; `resetAt`
  the value of `get_reset_time()`.

Total: every failure of the backend is caught in the source, so the
embedding returns a `RateLimitResult` in all cases (no exception escapes). -/
def check_rate_limit (tier identifier : String) (client : Option QuotaStore)
    (opFails : Bool) (today : String) (resetAt : ℚ) : RateLimitResult :=
  let limit := limit_for tier
  if limit = -1 then
    ⟨true, -1, -1, resetAt, tier, false⟩
  else
    match client with
    | none => ⟨true, limit, limit, resetAt, tier, false⟩
    | some store =>
      if opFails then ⟨true, limit, limit, resetAt, tier, false⟩
      else
        let key := get_rate_limit_key tier identifier today
        let count : Int := (quota_count key store : Int)
        if count ≥ limit then
          ⟨false, 0, limit, resetAt, tier, tier == "anonymous"⟩
        else
          ⟨true, limit - count, limit, resetAt, tier, false⟩

/-- The effect of the `record_usage` pipeline on the store:
`INCR key` (creates the key at 1 if absent) then
`EXPIRE key (RATE_LIMIT_WINDOW + 3600)`. -/
def quota_incr_expire (key : String) (store : QuotaStore) : QuotaStore :=
  alist_update key (quota_count key store + 1, RATE_LIMIT_WINDOW + 3600) store

/-- `record_usage(tier, identifier, ticker)` as a transformer of the backend
state. Returns the (possibly unchanged) store; `client = none` (backend
unreachable) and `opFails` (a `redis.RedisError` caught by the `except`)
leave the store untouched, as does an unlimited tier (`limit == -1`). -/
def record_usage (tier identifier today : String) (client : Option QuotaStore)
    (opFails : Bool) : Option QuotaStore :=
  let limit := limit_for tier
  match client with
  | none => none
  | some store =>
    if opFails then some store
    else if limit ≠ -1 then
      some (quota_incr_expire (get_rate_limit_key tier identifier today) store)
    else
      some store

/-! ## Result cache and batch fetch engine (`src/pe_scanner/data/fetcher.py`) -/

/-- The part of the `MarketData` dataclass the protection layer inspects:
the ticker symbol and `current_price` (the primary field whose absence
classifies a fetch as failed). The remaining fields are payload carried
unchanged and are irrelevant to every claim about this layer. -/
structure MarketData where
  ticker : String
  currentPrice : Option ℚ
deriving DecidableEq

/-- `CacheEntry` dataclass: data plus `expires_at`. -/
structure CacheEntry where
  data : MarketData
  expiresAt : ℚ
deriving DecidableEq

/-- `MarketDataCache` state: the dict plus hit/miss counters. -/
structure MarketDataCache where
  cache : List (String × CacheEntry)
  hits : Nat
  misses : Nat
deriving DecidableEq

def MarketDataCache.empty : MarketDataCache := ⟨[], 0, 0⟩

/-- `MarketDataCache.get`, with `datetime.now()` passed as `now`. An entry is
expired when `now > expires_at` (strict, as in the source); the first access
past expiry deletes the entry. Returns the lookup outcome and updated cache. -/
def MarketDataCache.get (c : MarketDataCache) (ticker : String) (now : ℚ) :
    Option MarketData × MarketDataCache :=
  match alist_lookup (pyUpper ticker) c.cache with
  | none => (none, { c with misses := c.misses + 1 })
  | some entry =>
    if now > entry.expiresAt then
      (none, { c with cache := alist_erase (pyUpper ticker) c.cache, misses := c.misses + 1 })
    else
      (some entry.data, { c with hits := c.hits + 1 })

/-- `MarketDataCache.set`: store under the uppercased key with
`expires_at = now + ttl_seconds`. -/
def MarketDataCache.set (c : MarketDataCache) (ticker : String) (data : MarketData)
    (ttlSeconds : ℚ) (now : ℚ) : MarketDataCache :=
  { c with cache := alist_update (pyUpper ticker) ⟨data, now + ttlSeconds⟩ c.cache }

/-- `MarketDataCache.clear`: returns the number of entries removed. -/
def MarketDataCache.clear (c : MarketDataCache) : Nat × MarketDataCache :=
  (c.cache.length, ⟨[], 0, 0⟩)

/-- The `size` field of `MarketDataCache.get_stats` (`len(self._cache)`). -/
def MarketDataCache.stats_size (c : MarketDataCache) : Nat :=
  c.cache.length

/-- Behaviour of the upstream provider for one ticker, as observed by
`_fetch_single_ticker`: either an exception propagating out of
`yf.Ticker` / `_extract_market_data` (caught by its `except` clause), or
extracted data with an optional current price (exceptions raised and caught
*inside* `_extract_market_data` appear here as `info none`, since they yield
a `MarketData` whose `current_price` is `None`). -/
inductive UpstreamOutcome where
  | throws (msg : String)
  | info (price : Option ℚ)
deriving DecidableEq

/-- Observable actions of a fetch worker, used to state which external calls
the worker performs and in which order. -/
inductive FetchEvent where
  | acquireThrottle
  | upstreamFetch (ticker : String)
  | cacheWrite (ticker : String)
deriving DecidableEq

/-- `_fetch_single_ticker(ticker, cache_ttl, use_cache)`: performs the
upstream fetch, classifies success by `data.current_price is not None`,
writes through to the cache on success, and converts exceptions to error
strings. Also returns the trace of external calls the worker performed. -/
def fetch_single_ticker (oracle : String → UpstreamOutcome) (ticker : String)
    (cacheTtl : ℚ) (useCache : Bool) (now : ℚ) (c : MarketDataCache) :
    (String × Option MarketData × Option String) × MarketDataCache × List FetchEvent :=
  match oracle ticker with
  | .throws msg => ((ticker, none, some msg), c, [.upstreamFetch ticker])
  | .info price =>
    let data : MarketData := ⟨ticker, price⟩
    match price with
    | some _ =>
      if useCache then
        ((ticker, some data, none), c.set ticker data cacheTtl now,
          [.upstreamFetch ticker, .cacheWrite ticker])
      else
        ((ticker, some data, none), c, [.upstreamFetch ticker])
    | none => ((ticker, none, some "No price data available"), c, [.upstreamFetch ticker])

/-- `FetchResult` dataclass (counters only; `total_time_seconds` is wall
clock and not modelled). -/
structure FetchResult where
  successful : List MarketData
  failed : List (String × String)
  cache_hits : Nat
  api_calls : Nat
deriving DecidableEq

/-- The generator `(t.strip().upper() for t in tickers if t and t.strip())`.
(`t` empty implies `t.strip()` empty, so the test reduces to the trimmed
string being nonempty.) -/
def normalize_tickers (tickers : List String) : List String :=
  tickers.filterMap (fun t => if pyStrip t = "" then none else some (pyUpper (pyStrip t)))

/-- `list(dict.fromkeys(...))`: deduplication keeping first occurrences. -/
def dedup_first (seen : List String) : List String → List String
  | [] => []
  | t :: rest =>
    if t ∈ seen then dedup_first seen rest
    else t :: dedup_first (t :: seen) rest

/-- Outcome of the cache-partition loop of `batch_fetch`. -/
structure CachePhaseOut where
  cachedData : List MarketData
  toFetch : List String
  cache : MarketDataCache
  hits : Nat
deriving DecidableEq

/-- The first loop of `batch_fetch`: for each unique ticker, consult the
cache when `use_cache`; hits go to `successful` (and bump `cache_hits`),
misses to `tickers_to_fetch`. -/
def cache_phase (useCache : Bool) (now : ℚ) :
    List String → MarketDataCache → CachePhaseOut
  | [], c => ⟨[], [], c, 0⟩
  | t :: rest, c =>
    if useCache then
      match MarketDataCache.get c t now with
      | (some d, c') =>
        let r := cache_phase useCache now rest c'
        ⟨d :: r.cachedData, r.toFetch, r.cache, r.hits + 1⟩
      | (none, c') =>
        let r := cache_phase useCache now rest c'
        ⟨r.cachedData, t :: r.toFetch, r.cache, r.hits⟩
    else
      let r := cache_phase useCache now rest c
      ⟨r.cachedData, t :: r.toFetch, r.cache, r.hits⟩

/-- Outcome of the worker-pool loop of `batch_fetch`. -/
structure FetchPhaseOut where
  succ : List MarketData
  failed : List (String × String)
  cache : MarketDataCache
  calls : Nat
  events : List FetchEvent
deriving DecidableEq

/-- The second loop of `batch_fetch`: dispatch `tickers_to_fetch` to
`_fetch_single_ticker` workers and collect the results; `api_calls` is
incremented per completed worker, successes are appended to `successful`,
failures to `failed` as `(ticker, error or "Unknown error")`. The pool is
determinized to submission order. -/
def fetch_phase (oracle : String → UpstreamOutcome) (useCache : Bool)
    (cacheTtl : ℚ) (now : ℚ) : List String → MarketDataCache → FetchPhaseOut
  | [], c => ⟨[], [], c, 0, []⟩
  | t :: rest, c =>
    let r1 := fetch_single_ticker oracle t cacheTtl useCache now c
    let r := fetch_phase oracle useCache cacheTtl now rest r1.2.1
    match r1.1.2.1 with
    | some d =>
      ⟨d :: r.succ, r.failed, r.cache, r.calls + 1, r1.2.2 ++ r.events⟩
    | none =>
      ⟨r.succ, (r1.1.1, (r1.1.2.2).getD "Unknown error") :: r.failed,
        r.cache, r.calls + 1, r1.2.2 ++ r.events⟩

/-- `batch_fetch(tickers, use_cache, cache_ttl, ...)`: early return on an
empty input list, then normalize + deduplicate, partition through the cache,
and fetch the remainder concurrently. Returns the `FetchResult`, the final
cache state and the trace of worker events. -/
def batch_fetch (oracle : String → UpstreamOutcome) (tickers : List String)
    (useCache : Bool) (cacheTtl : ℚ) (now : ℚ) (c : MarketDataCache) :
    FetchResult × MarketDataCache × List FetchEvent :=
  if tickers = [] then (⟨[], [], 0, 0⟩, c, [])
  else
    let uniqueTickers := dedup_first [] (normalize_tickers tickers)
    let p1 := cache_phase useCache now uniqueTickers c
    let p2 := fetch_phase oracle useCache cacheTtl now p1.toFetch p1.cache
    (⟨p1.cachedData ++ p2.succ, p2.failed, p1.hits, p2.calls⟩, p2.cache, p2.events)

/-! ## Claim theorems: throttle -/

theorem refill_fixed_clock (now : ℚ) (st : LocalThrottle) (h : now ≤ st.lastRefill) :
    refill_tokens_local now st = (st.tokens, st) := by
  rw [refill_tokens_local]
  simp only [YAHOO_REQUESTS_PER_SECOND]
  rw [if_neg]
  intro hpos
  nlinarith

theorem refill_fst_eq_snd_tokens (now : ℚ) (st : LocalThrottle) :
    (refill_tokens_local now st).1 = (refill_tokens_local now st).2.tokens := by
  rw [refill_tokens_local]
  split
  · rfl
  · rfl

theorem refill_tokens_val (now : ℚ) (st : LocalThrottle) :
    (refill_tokens_local now st).2.tokens =
      if (now - st.lastRefill) * YAHOO_REQUESTS_PER_SECOND > 0 then
        min (st.tokens + (now - st.lastRefill) * YAHOO_REQUESTS_PER_SECOND) YAHOO_BURST_LIMIT
      else st.tokens := by
  rw [refill_tokens_local]
  split
  · rfl
  · rfl

theorem consume_tokens_val (now : ℚ) (st : LocalThrottle) :
    (consume_token_local now st).2.tokens =
      if (refill_tokens_local now st).1 ≥ 1 then (refill_tokens_local now st).2.tokens - 1
      else (refill_tokens_local now st).2.tokens := by
  rw [consume_token_local]
  split
  · rfl
  · rfl

theorem consume_seq_le (now : ℚ) :
    ∀ (n : Nat) (st : LocalThrottle), now ≤ st.lastRefill → 0 ≤ st.tokens →
      ((consume_seq now n st).1 : ℚ) ≤ st.tokens := by
  intro n
  induction n with
  | zero =>
    intro st _ h0
    simpa [consume_seq] using h0
  | succ m ih =>
    intro st hlr h0
    rw [consume_seq]
    have hr := refill_fixed_clock now st hlr
    rw [consume_token_local, hr]
    by_cases h1 : st.tokens ≥ 1
    · simp only [h1, if_pos, ite_true]
      have hih := ih { st with tokens := st.tokens - 1 } hlr
        (by show (0:ℚ) ≤ st.tokens - 1; linarith)
      push_cast
      simp only at hih ⊢
      linarith
    · simp only [h1, ite_false]
      have hih := ih st hlr h0
      push_cast
      linarith

/-- C2: starting from a full bucket with the clock held at `now`, the number
of successful `_consume_token_local` calls never exceeds the burst size 5;
and any single refill or consume step preserves `0 ≤ tokens ≤ burstLimit`. -/
theorem token_conservation :
    (∀ (now : ℚ) (n : Nat),
        (consume_seq now n ⟨YAHOO_BURST_LIMIT, now⟩).1 ≤ 5)
    ∧ (∀ (now : ℚ) (st : LocalThrottle), 0 ≤ st.tokens → st.tokens ≤ YAHOO_BURST_LIMIT →
        (0 ≤ (refill_tokens_local now st).2.tokens
          ∧ (refill_tokens_local now st).2.tokens ≤ YAHOO_BURST_LIMIT
          ∧ 0 ≤ (consume_token_local now st).2.tokens
          ∧ (consume_token_local now st).2.tokens ≤ YAHOO_BURST_LIMIT)) := by
  constructor
  · intro now n
    have h := consume_seq_le now n ⟨YAHOO_BURST_LIMIT, now⟩ (le_refl now)
      (by norm_num [YAHOO_BURST_LIMIT])
    have h5 : ((consume_seq now n ⟨YAHOO_BURST_LIMIT, now⟩).1 : ℚ) ≤ 5 := by
      simpa [YAHOO_BURST_LIMIT] using h
    exact_mod_cast h5
  · intro now st h0 h5
    have hB : (0:ℚ) ≤ YAHOO_BURST_LIMIT := by norm_num [YAHOO_BURST_LIMIT]
    have hrefill : 0 ≤ (refill_tokens_local now st).2.tokens
        ∧ (refill_tokens_local now st).2.tokens ≤ YAHOO_BURST_LIMIT := by
      rw [refill_tokens_val]
      split
      · next hc =>
        exact ⟨le_min (by linarith) hB, min_le_right _ _⟩
      · exact ⟨h0, h5⟩
    have hfst := refill_fst_eq_snd_tokens now st
    refine ⟨hrefill.1, hrefill.2, ?_, ?_⟩
    · rw [consume_tokens_val]
      split
      · next hc =>
        rw [hfst] at hc
        linarith
      · exact hrefill.1
    · rw [consume_tokens_val]
      split
      · next hc =>
        have := hrefill.2
        linarith
      · exact hrefill.2

theorem token_conservation_witness :
    (consume_seq 0 7 ⟨YAHOO_BURST_LIMIT, 0⟩).1 ≤ 5
    ∧ (0 ≤ (refill_tokens_local 2 ⟨3, 0⟩).2.tokens
        ∧ (refill_tokens_local 2 ⟨3, 0⟩).2.tokens ≤ YAHOO_BURST_LIMIT
        ∧ 0 ≤ (consume_token_local 2 ⟨3, 0⟩).2.tokens
        ∧ (consume_token_local 2 ⟨3, 0⟩).2.tokens ≤ YAHOO_BURST_LIMIT) :=
  ⟨token_conservation.1 0 7,
    token_conservation.2 2 ⟨3, 0⟩ (by norm_num) (by norm_num [YAHOO_BURST_LIMIT])⟩

/-- C7: with `Δt = now - lastRefill > 0` elapsed and no acquisitions in
between, one refill step — local (`_refill_tokens_local`) or on a reachable
shared backend (`_refill_tokens_redis`) — increases the available tokens by
exactly `min (burstLimit - tokens) (Δt * rate)` and sets the last-refill
timestamp to `now`. -/
theorem refill_monotonicity :
    (∀ (st : LocalThrottle) (now : ℚ), 0 ≤ st.tokens → st.tokens ≤ YAHOO_BURST_LIMIT →
      st.lastRefill < now →
        (refill_tokens_local now st).2.tokens
          = st.tokens + min (YAHOO_BURST_LIMIT - st.tokens)
              ((now - st.lastRefill) * YAHOO_REQUESTS_PER_SECOND)
        ∧ (refill_tokens_local now st).2.lastRefill = now)
    ∧ (∀ (b : RedisBucket) (now t lr : ℚ), b.tokens = some t → b.lastRefill = some lr →
        0 ≤ t → t ≤ YAHOO_BURST_LIMIT → lr < now →
          (refill_tokens_redis now b).1
            = t + min (YAHOO_BURST_LIMIT - t) ((now - lr) * YAHOO_REQUESTS_PER_SECOND)
          ∧ (refill_tokens_redis now b).2
            = ⟨some ((refill_tokens_redis now b).1), some now⟩) := by
  have hrate : (0:ℚ) < YAHOO_REQUESTS_PER_SECOND := by norm_num [YAHOO_REQUESTS_PER_SECOND]
  have hmin : ∀ (t a : ℚ), min (t + a) YAHOO_BURST_LIMIT
      = t + min (YAHOO_BURST_LIMIT - t) a := by
    intro t a
    rw [min_comm (YAHOO_BURST_LIMIT - t) a, ← min_add_add_left]
    congr 1
    ring
  constructor
  · intro st now _ _ hlt
    have hpos : (now - st.lastRefill) * YAHOO_REQUESTS_PER_SECOND > 0 := by nlinarith
    have hval : refill_tokens_local now st
        = (min (st.tokens + (now - st.lastRefill) * YAHOO_REQUESTS_PER_SECOND) YAHOO_BURST_LIMIT,
            ⟨min (st.tokens + (now - st.lastRefill) * YAHOO_REQUESTS_PER_SECOND) YAHOO_BURST_LIMIT,
              now⟩) := by
      rw [refill_tokens_local, if_pos hpos]
    rw [hval]
    exact ⟨hmin _ _, rfl⟩
  · intro b now t lr ht hlr _ _ hlt
    obtain ⟨bt, blr⟩ := b
    simp only at ht hlr
    subst ht
    subst hlr
    have hpos : (now - lr) * YAHOO_REQUESTS_PER_SECOND > 0 := by nlinarith
    have hval : refill_tokens_redis now ⟨some t, some lr⟩
        = (min (t + (now - lr) * YAHOO_REQUESTS_PER_SECOND) YAHOO_BURST_LIMIT,
            ⟨some (min (t + (now - lr) * YAHOO_REQUESTS_PER_SECOND) YAHOO_BURST_LIMIT),
              some now⟩) := by
      rw [refill_tokens_redis]
      simp only [Option.getD_some]
      rw [if_pos hpos]
    rw [hval]
    exact ⟨hmin _ _, rfl⟩

theorem refill_monotonicity_witness :
    ((refill_tokens_local 1 ⟨2, 0⟩).2.tokens
        = 2 + min (YAHOO_BURST_LIMIT - 2) ((1 - 0) * YAHOO_REQUESTS_PER_SECOND)
      ∧ (refill_tokens_local 1 ⟨2, 0⟩).2.lastRefill = 1)
    ∧ ((refill_tokens_redis 1 ⟨some 2, some 0⟩).1
        = 2 + min (YAHOO_BURST_LIMIT - 2) ((1 - 0) * YAHOO_REQUESTS_PER_SECOND)
      ∧ (refill_tokens_redis 1 ⟨some 2, some 0⟩).2
        = ⟨some ((refill_tokens_redis 1 ⟨some 2, some 0⟩).1), some 1⟩) :=
  ⟨refill_monotonicity.1 ⟨2, 0⟩ 1 (by norm_num) (by norm_num [YAHOO_BURST_LIMIT]) (by norm_num),
    refill_monotonicity.2 ⟨some 2, some 0⟩ 1 2 0 rfl rfl (by norm_num)
      (by norm_num [YAHOO_BURST_LIMIT]) (by norm_num)⟩

/-- C3: fail-open. With the shared backend unreachable (`get_client()`
returning `None`) `check_rate_limit` returns `allowed = true` with
`remaining = limit`; the same holds when the backend raises during the
check (the `except redis.RedisError` branch). `acquire` in local mode with
an available token (refilled tokens ≥ 1) returns `True` on its first loop
iteration. All embedded operations are total functions returning plain
results, which is the model of "never raises an exception". -/
theorem fail_open :
    (∀ (tier identifier today : String) (resetAt : ℚ),
      (check_rate_limit tier identifier none false today resetAt).allowed = true
      ∧ (check_rate_limit tier identifier none false today resetAt).remaining
          = (check_rate_limit tier identifier none false today resetAt).limit)
    ∧ (∀ (tier identifier today : String) (resetAt : ℚ) (store : QuotaStore),
      (check_rate_limit tier identifier (some store) true today resetAt).allowed = true
      ∧ (check_rate_limit tier identifier (some store) true today resetAt).remaining
          = (check_rate_limit tier identifier (some store) true today resetAt).limit)
    ∧ (∀ (start timeout t0 : ℚ) (rest : List ℚ) (st : LocalThrottle),
      t0 - start < timeout → (refill_tokens_local t0 st).1 ≥ 1 →
      (acquire_local start timeout (t0 :: rest) st).1 = true) := by
  refine ⟨?_, ?_, ?_⟩
  · intro tier identifier today resetAt
    rw [check_rate_limit]
    split
    · exact ⟨rfl, rfl⟩
    · exact ⟨rfl, rfl⟩
  · intro tier identifier today resetAt store
    rw [check_rate_limit]
    split
    · exact ⟨rfl, rfl⟩
    · exact ⟨rfl, rfl⟩
  · intro start timeout t0 rest st hlt htok
    rw [acquire_local, if_pos hlt]
    have hc : (consume_token_local t0 st).1 = true := by
      rw [consume_token_local, if_pos htok]
    rw [if_pos hc]

theorem fail_open_witness :
    ((check_rate_limit "free" "1.2.3.4" none false "2026-10-12" 0).allowed = true
      ∧ (check_rate_limit "free" "1.2.3.4" none false "2026-10-12" 0).remaining
          = (check_rate_limit "free" "1.2.3.4" none false "2026-10-12" 0).limit)
    ∧ ((check_rate_limit "anonymous" "1.2.3.4" (some []) true "2026-10-12" 0).allowed = true)
    ∧ ((acquire_local 0 30 [0] ⟨5, 0⟩).1 = true) :=
  ⟨fail_open.1 "free" "1.2.3.4" "2026-10-12" 0,
    (fail_open.2.1 "anonymous" "1.2.3.4" "2026-10-12" 0 []).1,
    fail_open.2.2 0 30 0 [] ⟨5, 0⟩ (by norm_num)
      (by rw [refill_fixed_clock 0 ⟨5, 0⟩ (le_refl 0)]; norm_num)⟩

/-- `n` successive `record_usage` calls for the same (tier, identifier, day),
starting from an empty, reachable backend. -/
def record_usage_iter (tier identifier today : String) : Nat → Option QuotaStore
  | 0 => some []
  | n + 1 => record_usage tier identifier today (record_usage_iter tier identifier today n) false

/-- C4: for a limited tier with the backend reachable, `check_rate_limit`
reads today's counter; at or above the limit it denies with `remaining = 0`
and `suggest_upgrade` exactly for the anonymous tier, otherwise it allows
with `remaining = limit - count`. Concretely, tier `"free"` (limit 10) after
10 recorded usages is denied with no upgrade nudge, and tier `"anonymous"`
(limit 3) after 3 recorded usages is denied with the upgrade nudge. -/
theorem tiered_quota_check :
    (∀ (tier identifier today : String) (resetAt : ℚ) (store : QuotaStore),
      limit_for tier ≠ -1 →
        (((quota_count (get_rate_limit_key tier identifier today) store : Int)
              ≥ limit_for tier →
            (check_rate_limit tier identifier (some store) false today resetAt).allowed = false
            ∧ (check_rate_limit tier identifier (some store) false today resetAt).remaining = 0
            ∧ (check_rate_limit tier identifier (some store) false today resetAt).suggestUpgrade
                = (tier == "anonymous"))
        ∧ ((quota_count (get_rate_limit_key tier identifier today) store : Int)
              < limit_for tier →
            (check_rate_limit tier identifier (some store) false today resetAt).allowed = true
            ∧ (check_rate_limit tier identifier (some store) false today resetAt).remaining
                = limit_for tier
                  - (quota_count (get_rate_limit_key tier identifier today) store : Int))))
    ∧ check_rate_limit "free" "u1" (record_usage_iter "free" "u1" "2026-10-12" 10)
        false "2026-10-12" 0 = ⟨false, 0, 10, 0, "free", false⟩
    ∧ check_rate_limit "anonymous" "1.2.3.4"
        (record_usage_iter "anonymous" "1.2.3.4" "2026-10-12" 3)
        false "2026-10-12" 0 = ⟨false, 0, 3, 0, "anonymous", true⟩ := by
  refine ⟨?_, by decide, by decide⟩
  intro tier identifier today resetAt store hlim
  have hval : check_rate_limit tier identifier (some store) false today resetAt
      = if (quota_count (get_rate_limit_key tier identifier today) store : Int)
            ≥ limit_for tier
        then ⟨false, 0, limit_for tier, resetAt, tier, tier == "anonymous"⟩
        else ⟨true,
          limit_for tier - (quota_count (get_rate_limit_key tier identifier today) store : Int),
          limit_for tier, resetAt, tier, false⟩ := by
    rw [check_rate_limit]
    rw [if_neg hlim]
    rfl
  constructor
  · intro hge
    rw [hval, if_pos hge]
    exact ⟨rfl, rfl, rfl⟩
  · intro hltc
    rw [hval, if_neg (not_le.mpr hltc)]
    exact ⟨rfl, rfl⟩

theorem tiered_quota_check_witness :
    ((check_rate_limit "free" "u2" (some [(get_rate_limit_key "free" "u2" "2026-10-12", 10, 90000)])
        false "2026-10-12" 0).allowed = false
      ∧ (check_rate_limit "free" "u2" (some [(get_rate_limit_key "free" "u2" "2026-10-12", 10, 90000)])
          false "2026-10-12" 0).remaining = 0
      ∧ (check_rate_limit "free" "u2" (some [(get_rate_limit_key "free" "u2" "2026-10-12", 10, 90000)])
          false "2026-10-12" 0).suggestUpgrade = ("free" == "anonymous")) :=
  ((tiered_quota_check.1 "free" "u2" "2026-10-12" 0
      [(get_rate_limit_key "free" "u2" "2026-10-12", 10, 90000)] (by decide)).1 (by decide))

/-- C8: `record_usage` on a reachable backend is a no-op on the store for
unlimited tiers (`limit == -1`); for every limited tier it increments the
day's counter by exactly 1 and sets its expiry to `window + 1h`
(86400 + 3600 seconds). -/
theorem record_usage_spec :
    ∀ (tier identifier today : String) (store : QuotaStore),
      (limit_for tier = -1 →
        record_usage tier identifier today (some store) false = some store)
      ∧ (limit_for tier ≠ -1 →
          record_usage tier identifier today (some store) false
              = some (quota_incr_expire (get_rate_limit_key tier identifier today) store)
          ∧ quota_count (get_rate_limit_key tier identifier today)
              (quota_incr_expire (get_rate_limit_key tier identifier today) store)
              = quota_count (get_rate_limit_key tier identifier today) store + 1
          ∧ quota_ttl (get_rate_limit_key tier identifier today)
              (quota_incr_expire (get_rate_limit_key tier identifier today) store)
              = some (RATE_LIMIT_WINDOW + 3600)) := by
  intro tier identifier today store
  constructor
  · intro hlim
    have hcond : ¬ (limit_for tier ≠ -1) := fun h => h hlim
    rw [record_usage, if_neg hcond]
    rfl
  · intro hlim
    refine ⟨?_, ?_, ?_⟩
    · rw [record_usage, if_pos hlim]
      rfl
    · rw [quota_count, quota_incr_expire, alist_lookup_update_self]
    · rw [quota_ttl, quota_incr_expire, alist_lookup_update_self]
      rfl

theorem record_usage_spec_witness :
    (record_usage "pro" "u3" "2026-10-12" (some []) false = some [])
    ∧ (record_usage "free" "u3" "2026-10-12" (some []) false
          = some (quota_incr_expire (get_rate_limit_key "free" "u3" "2026-10-12") [])
        ∧ quota_count (get_rate_limit_key "free" "u3" "2026-10-12")
            (quota_incr_expire (get_rate_limit_key "free" "u3" "2026-10-12") [])
            = quota_count (get_rate_limit_key "free" "u3" "2026-10-12") [] + 1
        ∧ quota_ttl (get_rate_limit_key "free" "u3" "2026-10-12")
            (quota_incr_expire (get_rate_limit_key "free" "u3" "2026-10-12") [])
            = some (RATE_LIMIT_WINDOW + 3600)) :=
  ⟨(record_usage_spec "pro" "u3" "2026-10-12" []).1 (by decide),
    (record_usage_spec "free" "u3" "2026-10-12" []).2 (by decide)⟩

/-- C5 counterexample: the claim says a `Get` at or after `expiresAt` is a
miss. In the source an entry is expired only when `now > expires_at`
(strict), so a `Get` exactly at `expiresAt` returns the stored value, not a
miss: with an entry for `"AAPL"` expiring at time 100, `get` at time 100
returns the value. -/
theorem cache_ttl_boundary_counterexample :
    (MarketDataCache.get ⟨[("AAPL", ⟨⟨"AAPL", some 10⟩, 100⟩)], 0, 0⟩ "AAPL" 100).1
        = some ⟨"AAPL", some 10⟩
    ∧ ¬ (MarketDataCache.get ⟨[("AAPL", ⟨⟨"AAPL", some 10⟩, 100⟩)], 0, 0⟩ "AAPL" 100).1
        = none := by
  decide

/-- C5 amended: an entry is valid iff `now ≤ expiresAt`. A `Get` at any time
up to and including `expiresAt` returns the stored value; a `Get` strictly
after `expiresAt` is a miss, deletes the entry (so, on a cache with the dict
key-uniqueness invariant, the key no longer resolves), and the subsequent
stats `size` no longer counts it. -/
theorem cache_ttl_boundary_amended :
    ∀ (c : MarketDataCache) (key : String) (e : CacheEntry) (now : ℚ),
      alist_lookup (pyUpper key) c.cache = some e →
      (c.cache.map Prod.fst).Nodup →
        ((now ≤ e.expiresAt → (c.get key now).1 = some e.data)
        ∧ (now > e.expiresAt →
            (c.get key now).1 = none
            ∧ alist_lookup (pyUpper key) (c.get key now).2.cache = none
            ∧ (c.get key now).2.stats_size = c.stats_size - 1)) := by
  intro c key e now hlook hnd
  constructor
  · intro hle
    simp only [MarketDataCache.get, hlook]
    rw [if_neg (not_lt.mpr hle)]
  · intro hgt
    have hval : c.get key now
        = (none,
          { cache := alist_erase (pyUpper key) c.cache, hits := c.hits,
            misses := c.misses + 1 }) := by
      simp only [MarketDataCache.get, hlook]
      rw [if_pos hgt]
    refine ⟨by rw [hval], ?_, ?_⟩
    · rw [hval]
      exact alist_lookup_erase_self (pyUpper key) c.cache hnd
    · rw [hval]
      show (alist_erase (pyUpper key) c.cache).length = c.cache.length - 1
      exact alist_length_erase_of_lookup (pyUpper key) c.cache (by rw [hlook]; rfl)

theorem cache_ttl_boundary_amended_witness :
    (((100:ℚ) ≤ 100 →
        ((⟨[("HOOD", ⟨⟨"HOOD", some 7⟩, 100⟩)], 0, 0⟩ : MarketDataCache).get "HOOD" 100).1
          = some ⟨"HOOD", some 7⟩)
    ∧ ((100:ℚ) > 100 →
        ((⟨[("HOOD", ⟨⟨"HOOD", some 7⟩, 100⟩)], 0, 0⟩ : MarketDataCache).get "HOOD" 100).1
          = none
        ∧ alist_lookup (pyUpper "HOOD")
            ((⟨[("HOOD", ⟨⟨"HOOD", some 7⟩, 100⟩)], 0, 0⟩ : MarketDataCache).get
              "HOOD" 100).2.cache = none
        ∧ ((⟨[("HOOD", ⟨⟨"HOOD", some 7⟩, 100⟩)], 0, 0⟩ : MarketDataCache).get
              "HOOD" 100).2.stats_size
            = (⟨[("HOOD", ⟨⟨"HOOD", some 7⟩, 100⟩)], 0, 0⟩ : MarketDataCache).stats_size
              - 1)) :=
  cache_ttl_boundary_amended ⟨[("HOOD", ⟨⟨"HOOD", some 7⟩, 100⟩)], 0, 0⟩ "HOOD"
    ⟨⟨"HOOD", some 7⟩, 100⟩ 100 (by decide) (by decide)

/-- C9: cache keys are case-normalized on both store and lookup: if `k1` and
`k2` agree after uppercasing, a `Set(k1, v)` followed by a `Get(k2)` before
expiry returns `v`, and a second `Set` under `k2` overwrites the same single
entry (the stats `size` does not grow). -/
theorem cache_key_normalization :
    ∀ (c : MarketDataCache) (k1 k2 : String) (v w : MarketData)
      (ttl ttl2 now now2 nowG : ℚ),
      pyUpper k1 = pyUpper k2 →
        ((nowG < now + ttl →
          ((MarketDataCache.set c k1 v ttl now).get k2 nowG).1 = some v)
        ∧ (MarketDataCache.set (MarketDataCache.set c k1 v ttl now) k2 w ttl2 now2).stats_size
            = (MarketDataCache.set c k1 v ttl now).stats_size) := by
  intro c k1 k2 v w ttl ttl2 now now2 nowG hk
  have hlook : alist_lookup (pyUpper k2) (MarketDataCache.set c k1 v ttl now).cache
      = some ⟨v, now + ttl⟩ := by
    show alist_lookup (pyUpper k2) (alist_update (pyUpper k1) ⟨v, now + ttl⟩ c.cache)
        = some ⟨v, now + ttl⟩
    rw [← hk]
    exact alist_lookup_update_self (pyUpper k1) ⟨v, now + ttl⟩ c.cache
  constructor
  · intro hbefore
    simp only [MarketDataCache.get, hlook]
    rw [if_neg (not_lt.mpr (le_of_lt hbefore))]
  · show (alist_update (pyUpper k2) (⟨w, now2 + ttl2⟩ : CacheEntry)
        (MarketDataCache.set c k1 v ttl now).cache).length
      = (MarketDataCache.set c k1 v ttl now).cache.length
    exact alist_length_update_of_lookup (pyUpper k2) (⟨w, now2 + ttl2⟩ : CacheEntry) _
      (by rw [hlook]; rfl)

theorem cache_key_normalization_witness :
    (((0:ℚ) < 0 + 3600 →
      ((MarketDataCache.set MarketDataCache.empty "aapl" ⟨"AAPL", some 10⟩ 3600 0).get
          "AaPl" 0).1 = some ⟨"AAPL", some 10⟩)
    ∧ (MarketDataCache.set
          (MarketDataCache.set MarketDataCache.empty "aapl" ⟨"AAPL", some 10⟩ 3600 0)
          "AaPl" ⟨"AAPL", some 11⟩ 3600 1).stats_size
        = (MarketDataCache.set MarketDataCache.empty "aapl"
            ⟨"AAPL", some 10⟩ 3600 0).stats_size) :=
  cache_key_normalization MarketDataCache.empty "aapl" "AaPl" ⟨"AAPL", some 10⟩
    ⟨"AAPL", some 11⟩ 3600 3600 0 1 0 (by decide)

/-- C1 (refuting evaluation): the batch-fetch worker performs the upstream
fetch without any preceding throttle acquire. On input `["AAPL"]` with an
empty cache and a responsive upstream, the trace of worker events is exactly
upstream-fetch then cache-write: no `acquireThrottle` event occurs anywhere
(the fetch path of `_fetch_single_ticker` / `batch_fetch` contains no call
into `api_throttle`), contradicting the claimed
"Acquire before every non-cached fetch" control flow. -/
theorem batch_fetch_worker_no_throttle_acquire :
    (batch_fetch (fun _ => UpstreamOutcome.info (some 10)) ["AAPL"] true 3600 0
        MarketDataCache.empty).2.2
      = [FetchEvent.upstreamFetch "AAPL", FetchEvent.cacheWrite "AAPL"]
    ∧ FetchEvent.acquireThrottle ∉
        (batch_fetch (fun _ => UpstreamOutcome.info (some 10)) ["AAPL"] true 3600 0
          MarketDataCache.empty).2.2 := by
  decide

/-- C6: per-item failure isolation. For any three distinct normalized keys
where the second one's upstream fetch throws and the other two return data
with a price, `batch_fetch` on an empty cache yields exactly 2 successes and
the single failure `(k2, msg)`; the embedding is a total function, so no
exception escapes the call. -/
theorem batch_isolation :
    ∀ (oracle : String → UpstreamOutcome) (k1 k2 k3 msg : String) (p1 p3 : ℚ)
      (useCache : Bool) (cacheTtl now : ℚ),
      pyStrip k1 ≠ "" → pyUpper (pyStrip k1) = k1 →
      pyStrip k2 ≠ "" → pyUpper (pyStrip k2) = k2 →
      pyStrip k3 ≠ "" → pyUpper (pyStrip k3) = k3 →
      k1 ≠ k2 → k1 ≠ k3 → k2 ≠ k3 →
      oracle k1 = UpstreamOutcome.info (some p1) →
      oracle k2 = UpstreamOutcome.throws msg →
      oracle k3 = UpstreamOutcome.info (some p3) →
        (batch_fetch oracle [k1, k2, k3] useCache cacheTtl now
            MarketDataCache.empty).1.successful.length = 2
        ∧ (batch_fetch oracle [k1, k2, k3] useCache cacheTtl now
            MarketDataCache.empty).1.failed = [(k2, msg)] := by
  intro oracle k1 k2 k3 msg p1 p3 useCache cacheTtl now
  intro hs1 hu1 hs2 hu2 hs3 hu3 h12 h13 h23 ho1 ho2 ho3
  have h21 : k2 ≠ k1 := Ne.symm h12
  have h31 : k3 ≠ k1 := Ne.symm h13
  have h32 : k3 ≠ k2 := Ne.symm h23
  have hnorm : normalize_tickers [k1, k2, k3] = [k1, k2, k3] := by
    simp [normalize_tickers, hs1, hs2, hs3, hu1, hu2, hu3]
  have hdedup : dedup_first [] (normalize_tickers [k1, k2, k3]) = [k1, k2, k3] := by
    rw [hnorm]
    simp [dedup_first, h21, h31, h32]
  have hne : ([k1, k2, k3] : List String) ≠ [] := by simp
  rw [batch_fetch, if_neg hne, hdedup]
  have hcache : ∀ (h m : Nat), cache_phase useCache now [k1, k2, k3] ⟨[], h, m⟩
      = ⟨[], [k1, k2, k3], ⟨[], h, m + (if useCache then 3 else 0)⟩, 0⟩ := by
    intro h m
    cases useCache
    · simp [cache_phase]
    · simp [cache_phase, MarketDataCache.get, alist_lookup]
  show ((let p1 := cache_phase useCache now [k1, k2, k3] ⟨[], 0, 0⟩;
      let p2 := fetch_phase oracle useCache cacheTtl now p1.toFetch p1.cache;
      ((⟨p1.cachedData ++ p2.succ, p2.failed, p1.hits, p2.calls⟩ : FetchResult),
        p2.cache, p2.events)).1.successful.length = 2)
    ∧ ((let p1 := cache_phase useCache now [k1, k2, k3] ⟨[], 0, 0⟩;
      let p2 := fetch_phase oracle useCache cacheTtl now p1.toFetch p1.cache;
      ((⟨p1.cachedData ++ p2.succ, p2.failed, p1.hits, p2.calls⟩ : FetchResult),
        p2.cache, p2.events)).1.failed = [(k2, msg)])
  simp only [hcache 0 0]
  cases useCache
  · simp [fetch_phase, fetch_single_ticker, ho1, ho2, ho3]
  · simp [fetch_phase, fetch_single_ticker, ho1, ho2, ho3]

theorem batch_isolation_witness :
    (batch_fetch
        (fun t => if t = "HOOD" then UpstreamOutcome.info (some 20)
          else if t = "AAPL" then UpstreamOutcome.throws "boom"
          else UpstreamOutcome.info (some 30))
        ["HOOD", "AAPL", "MSFT"] true 3600 0 MarketDataCache.empty).1.successful.length = 2
    ∧ (batch_fetch
        (fun t => if t = "HOOD" then UpstreamOutcome.info (some 20)
          else if t = "AAPL" then UpstreamOutcome.throws "boom"
          else UpstreamOutcome.info (some 30))
        ["HOOD", "AAPL", "MSFT"] true 3600 0 MarketDataCache.empty).1.failed
      = [("AAPL", "boom")] :=
  batch_isolation
    (fun t => if t = "HOOD" then UpstreamOutcome.info (some 20)
      else if t = "AAPL" then UpstreamOutcome.throws "boom"
      else UpstreamOutcome.info (some 30))
    "HOOD" "AAPL" "MSFT" "boom" 20 30 true 3600 0
    (by decide) (by decide) (by decide) (by decide) (by decide) (by decide)
    (by decide) (by decide) (by decide) (by decide) (by decide) (by decide)

/-! ## Batch accounting lemmas (for the `batch_fetch` bookkeeping claim) -/

theorem alist_lookup_mem {β : Type} (k : String) (l : List (String × β)) (v : β)
    (h : alist_lookup k l = some v) : (k, v) ∈ l := by
  induction l with
  | nil => simp [alist_lookup] at h
  | cons p rest ih =>
    rw [alist_lookup] at h
    by_cases hk : p.1 = k
    · rw [if_pos hk] at h
      have hv := Option.some.inj h
      have hp : (k, v) = p := by
        obtain ⟨p1, p2⟩ := p
        simp only at hk hv
        rw [hk, hv]
      rw [hp]
      exact List.mem_cons_self _ _
    · rw [if_neg hk] at h
      exact List.mem_cons_of_mem _ (ih h)

theorem alist_erase_subset {β : Type} (k : String) (l : List (String × β)) :
    ∀ p, p ∈ alist_erase k l → p ∈ l := by
  induction l with
  | nil => intro p hp; simp [alist_erase] at hp
  | cons q rest ih =>
    intro p hp
    rw [alist_erase] at hp
    by_cases hk : q.1 = k
    · rw [if_pos hk] at hp
      exact List.mem_cons_of_mem _ hp
    · rw [if_neg hk] at hp
      rcases List.mem_cons.mp hp with h | h
      · exact h ▸ List.mem_cons_self _ _
      · exact List.mem_cons_of_mem _ (ih p h)

/-- A cache where every entry's stored ticker equals its (normalized) key:
the invariant every `MarketDataCache.set` of a fetched result maintains. -/
def cache_well_keyed (c : MarketDataCache) : Prop :=
  ∀ p ∈ c.cache, p.2.data.ticker = p.1

theorem get_preserves_well_keyed (c : MarketDataCache) (t : String) (now : ℚ)
    (h : cache_well_keyed c) : cache_well_keyed (c.get t now).2 := by
  cases hl : alist_lookup (pyUpper t) c.cache with
  | none =>
    simp only [MarketDataCache.get, hl]
    exact h
  | some e =>
    by_cases he : now > e.expiresAt
    · simp only [MarketDataCache.get, hl, if_pos he]
      intro p hp
      exact h p (alist_erase_subset _ _ p hp)
    · simp only [MarketDataCache.get, hl, if_neg he]
      exact h

theorem get_some_ticker (c : MarketDataCache) (t : String) (now : ℚ) (d : MarketData)
    (hwk : cache_well_keyed c) (h : (c.get t now).1 = some d) : d.ticker = pyUpper t := by
  cases hl : alist_lookup (pyUpper t) c.cache with
  | none =>
    simp only [MarketDataCache.get, hl] at h
    exact absurd h (by simp)
  | some e =>
    by_cases he : now > e.expiresAt
    · simp only [MarketDataCache.get, hl, if_pos he] at h
      exact absurd h (by simp)
    · simp only [MarketDataCache.get, hl, if_neg he] at h
      have hmem := hwk (pyUpper t, e) (alist_lookup_mem _ _ _ hl)
      rw [← Option.some.inj h]
      exact hmem

theorem cache_phase_counts (u : Bool) (now : ℚ) :
    ∀ (l : List String) (c : MarketDataCache),
      (cache_phase u now l c).cachedData.length + (cache_phase u now l c).toFetch.length
          = l.length
      ∧ (cache_phase u now l c).hits = (cache_phase u now l c).cachedData.length := by
  intro l
  induction l with
  | nil => intro c; cases u <;> simp [cache_phase]
  | cons t rest ih =>
    intro c
    cases u
    · have h1 := ih c
      simp only [cache_phase, Bool.false_eq_true, ite_false, List.length_cons]
      omega
    · cases hg : MarketDataCache.get c t now with
      | mk od c' =>
        have h1 := ih c'
        cases od
        · simp only [cache_phase, hg, ite_true, List.length_cons]
          omega
        · simp only [cache_phase, hg, ite_true, List.length_cons]
          omega

theorem cache_phase_perm (u : Bool) (now : ℚ) :
    ∀ (l : List String) (c : MarketDataCache), cache_well_keyed c →
      (∀ t ∈ l, pyUpper t = t) →
      ((cache_phase u now l c).cachedData.map MarketData.ticker
          ++ (cache_phase u now l c).toFetch).Perm l := by
  intro l
  induction l with
  | nil => intro c _ _; cases u <;> simp [cache_phase]
  | cons t rest ih =>
    intro c hwk hnorm
    cases u
    · simp only [cache_phase, Bool.false_eq_true, ite_false]
      have hrest := ih c hwk (fun x hx => hnorm x (List.mem_cons_of_mem _ hx))
      exact List.perm_middle.trans (hrest.cons t)
    · cases hg : MarketDataCache.get c t now with
      | mk od c' =>
        have hwk' : cache_well_keyed c' := by
          have hp := get_preserves_well_keyed c t now hwk
          rw [hg] at hp
          exact hp
        have hrest := ih c' hwk' (fun x hx => hnorm x (List.mem_cons_of_mem _ hx))
        cases od with
        | some d =>
          have hd : d.ticker = pyUpper t := by
            apply get_some_ticker c t now d hwk
            rw [hg]
          have hdt : d.ticker = t := by rw [hd, hnorm t (List.mem_cons_self _ _)]
          simp only [cache_phase, hg, ite_true, List.map_cons, List.cons_append, hdt]
          exact hrest.cons t
        | none =>
          simp only [cache_phase, hg, ite_true]
          exact List.perm_middle.trans (hrest.cons t)

theorem fetch_phase_counts (oracle : String → UpstreamOutcome) (u : Bool)
    (ttl now : ℚ) :
    ∀ (l : List String) (c : MarketDataCache),
      (fetch_phase oracle u ttl now l c).succ.length
          + (fetch_phase oracle u ttl now l c).failed.length = l.length
      ∧ (fetch_phase oracle u ttl now l c).calls = l.length := by
  intro l
  induction l with
  | nil => intro c; simp [fetch_phase]
  | cons t rest ih =>
    intro c
    simp only [fetch_phase]
    cases hr : fetch_single_ticker oracle t ttl u now c with
    | mk a bc =>
      obtain ⟨tk, od, err⟩ := a
      have h1 := ih bc.1
      cases od
      · simp only [List.length_cons]
        omega
      · simp only [List.length_cons]
        omega

theorem fetch_phase_perm (oracle : String → UpstreamOutcome) (u : Bool)
    (ttl now : ℚ) :
    ∀ (l : List String) (c : MarketDataCache),
      ((fetch_phase oracle u ttl now l c).succ.map MarketData.ticker
          ++ (fetch_phase oracle u ttl now l c).failed.map Prod.fst).Perm l := by
  intro l
  induction l with
  | nil => intro c; simp [fetch_phase]
  | cons t rest ih =>
    intro c
    have hkey : ∀ (c0 : MarketDataCache),
        ((fetch_single_ticker oracle t ttl u now c0).1.1 = t
        ∧ ∀ d, (fetch_single_ticker oracle t ttl u now c0).1.2.1 = some d → d.ticker = t) := by
      intro c0
      rw [fetch_single_ticker]
      cases oracle t with
      | throws msg => exact ⟨rfl, by intro d hd; exact absurd hd (by simp)⟩
      | info price =>
        cases price with
        | some p =>
          cases u
          · exact ⟨rfl, by intro d hd; rw [← Option.some.inj hd]⟩
          · exact ⟨rfl, by intro d hd; rw [← Option.some.inj hd]⟩
        | none => exact ⟨rfl, by intro d hd; exact absurd hd (by simp)⟩
    simp only [fetch_phase]
    cases hr : fetch_single_ticker oracle t ttl u now c with
    | mk a bc =>
      obtain ⟨tk, od, err⟩ := a
      have h1 := ih bc.1
      have hk := hkey c
      rw [hr] at hk
      simp only at hk
      cases od with
      | some d =>
        have hd : d.ticker = t := hk.2 d rfl
        simp only [List.map_cons, List.cons_append, hd]
        exact h1.cons t
      | none =>
        simp only [List.map_cons]
        have ht : tk = t := hk.1
        rw [ht]
        exact List.perm_middle.trans (h1.cons t)

theorem dedup_first_subset :
    ∀ (l seen : List String) (t : String), t ∈ dedup_first seen l → t ∈ l := by
  intro l
  induction l with
  | nil => intro seen t ht; simp [dedup_first] at ht
  | cons x rest ih =>
    intro seen t ht
    rw [dedup_first] at ht
    by_cases hx : x ∈ seen
    · rw [if_pos hx] at ht
      exact List.mem_cons_of_mem _ (ih seen t ht)
    · rw [if_neg hx] at ht
      rcases List.mem_cons.mp ht with h | h
      · exact h ▸ List.mem_cons_self _ _
      · exact List.mem_cons_of_mem _ (ih (x :: seen) t h)

theorem normalize_tickers_normalized (ts : List String) :
    ∀ t ∈ normalize_tickers ts, pyUpper t = t := by
  intro t ht
  rw [normalize_tickers, List.mem_filterMap] at ht
  obtain ⟨a, _, ha⟩ := ht
  by_cases hs : pyStrip a = ""
  · rw [if_pos hs] at ha
    exact absurd ha (by simp)
  · rw [if_neg hs] at ha
    have := Option.some.inj ha
    rw [← this, pyUpper_idem]

theorem batch_fetch_eq_of_ne_nil (oracle : String → UpstreamOutcome)
    (tickers : List String) (useCache : Bool) (cacheTtl now : ℚ)
    (c : MarketDataCache) (h : tickers ≠ []) :
    batch_fetch oracle tickers useCache cacheTtl now c
      = ((⟨(cache_phase useCache now (dedup_first [] (normalize_tickers tickers)) c).cachedData
            ++ (fetch_phase oracle useCache cacheTtl now
                (cache_phase useCache now (dedup_first [] (normalize_tickers tickers)) c).toFetch
                (cache_phase useCache now (dedup_first [] (normalize_tickers tickers)) c).cache).succ,
          (fetch_phase oracle useCache cacheTtl now
              (cache_phase useCache now (dedup_first [] (normalize_tickers tickers)) c).toFetch
              (cache_phase useCache now (dedup_first [] (normalize_tickers tickers)) c).cache).failed,
          (cache_phase useCache now (dedup_first [] (normalize_tickers tickers)) c).hits,
          (fetch_phase oracle useCache cacheTtl now
              (cache_phase useCache now (dedup_first [] (normalize_tickers tickers)) c).toFetch
              (cache_phase useCache now (dedup_first [] (normalize_tickers tickers)) c).cache).calls⟩ : FetchResult),
        (fetch_phase oracle useCache cacheTtl now
            (cache_phase useCache now (dedup_first [] (normalize_tickers tickers)) c).toFetch
            (cache_phase useCache now (dedup_first [] (normalize_tickers tickers)) c).cache).cache,
        (fetch_phase oracle useCache cacheTtl now
            (cache_phase useCache now (dedup_first [] (normalize_tickers tickers)) c).toFetch
            (cache_phase useCache now (dedup_first [] (normalize_tickers tickers)) c).cache).events) := by
  rw [batch_fetch, if_neg h]

/-- C10: `batch_fetch` bookkeeping. Every distinct normalized key (trimmed,
uppercased, empties dropped) is accounted for exactly once across
`successful` and `failed` (stated as a permutation of the result keys with
the deduplicated normalized input, for caches satisfying the key invariant),
`cache_hits + api_calls` equals the number of distinct normalized keys, and
an input that is empty or all-blank yields the empty result with zero
counters. -/
theorem batch_fetch_accounting :
    ∀ (oracle : String → UpstreamOutcome) (tickers : List String) (useCache : Bool)
      (cacheTtl now : ℚ) (c : MarketDataCache),
      ((batch_fetch oracle tickers useCache cacheTtl now c).1.cache_hits
          + (batch_fetch oracle tickers useCache cacheTtl now c).1.api_calls
        = (dedup_first [] (normalize_tickers tickers)).length)
      ∧ ((batch_fetch oracle tickers useCache cacheTtl now c).1.successful.length
          + (batch_fetch oracle tickers useCache cacheTtl now c).1.failed.length
        = (dedup_first [] (normalize_tickers tickers)).length)
      ∧ (normalize_tickers tickers = [] →
          (batch_fetch oracle tickers useCache cacheTtl now c).1 = ⟨[], [], 0, 0⟩)
      ∧ (cache_well_keyed c →
          (((batch_fetch oracle tickers useCache cacheTtl now c).1.successful.map
              MarketData.ticker)
            ++ ((batch_fetch oracle tickers useCache cacheTtl now c).1.failed.map
              Prod.fst)).Perm
            (dedup_first [] (normalize_tickers tickers))) := by
  intro oracle tickers useCache cacheTtl now c
  by_cases hts : tickers = []
  · subst hts
    rw [batch_fetch, if_pos rfl]
    refine ⟨rfl, rfl, fun _ => rfl, fun _ => ?_⟩
    exact List.Perm.refl _
  · rw [batch_fetch_eq_of_ne_nil oracle tickers useCache cacheTtl now c hts]
    have hcc := cache_phase_counts useCache now (dedup_first [] (normalize_tickers tickers)) c
    have hfc := fetch_phase_counts oracle useCache cacheTtl now
      (cache_phase useCache now (dedup_first [] (normalize_tickers tickers)) c).toFetch
      (cache_phase useCache now (dedup_first [] (normalize_tickers tickers)) c).cache
    refine ⟨?_, ?_, ?_, ?_⟩
    · simp only
      omega
    · simp only [List.length_append]
      omega
    · intro hnil
      have hu : dedup_first [] (normalize_tickers tickers) = [] := by
        rw [hnil]
        rfl
      simp only [hu, cache_phase, fetch_phase, List.append_nil]
    · intro hwk
      have hnormed : ∀ t ∈ dedup_first [] (normalize_tickers tickers), pyUpper t = t :=
        fun t ht => normalize_tickers_normalized tickers t
          (dedup_first_subset (normalize_tickers tickers) [] t ht)
      have hcp := cache_phase_perm useCache now (dedup_first [] (normalize_tickers tickers))
        c hwk hnormed
      have hfp := fetch_phase_perm oracle useCache cacheTtl now
        (cache_phase useCache now (dedup_first [] (normalize_tickers tickers)) c).toFetch
        (cache_phase useCache now (dedup_first [] (normalize_tickers tickers)) c).cache
      simp only [List.map_append, List.append_assoc]
      exact (List.Perm.append_left _ hfp).trans hcp

theorem batch_fetch_accounting_witness :
    ((batch_fetch (fun _ => UpstreamOutcome.info none) ["  hood ", "HOOD", "", "aapl"]
          true 3600 0 MarketDataCache.empty).1.cache_hits
        + (batch_fetch (fun _ => UpstreamOutcome.info none) ["  hood ", "HOOD", "", "aapl"]
          true 3600 0 MarketDataCache.empty).1.api_calls
      = (dedup_first []
          (normalize_tickers ["  hood ", "HOOD", "", "aapl"])).length)
    ∧ (((batch_fetch (fun _ => UpstreamOutcome.info none) ["  hood ", "HOOD", "", "aapl"]
          true 3600 0 MarketDataCache.empty).1.successful.map MarketData.ticker)
        ++ ((batch_fetch (fun _ => UpstreamOutcome.info none) ["  hood ", "HOOD", "", "aapl"]
          true 3600 0 MarketDataCache.empty).1.failed.map Prod.fst)).Perm
        (dedup_first [] (normalize_tickers ["  hood ", "HOOD", "", "aapl"])) :=
  ⟨(batch_fetch_accounting (fun _ => UpstreamOutcome.info none)
      ["  hood ", "HOOD", "", "aapl"] true 3600 0 MarketDataCache.empty).1,
    (batch_fetch_accounting (fun _ => UpstreamOutcome.info none)
      ["  hood ", "HOOD", "", "aapl"] true 3600 0 MarketDataCache.empty).2.2.2
      (by intro p hp; exact absurd hp (by simp [MarketDataCache.empty]))⟩
